import Mathlib

/-!
Shallow embedding of `stack-inspector.py`, a gdb command that walks the
current backtrace and prints, per frame, a header, the pc/sp/fp registers,
and the in-scope symbols sorted by size descending.

Modelling choices:
* a gdb `Frame` is modelled by the data the script reads from it: the
  result of `find_sal()` (an optional symtab filename plus a line), the
  function name, `pc()` and the `sp`/`fp` registers, and the result of
  `frame.block()` — `none` models the `RuntimeError` caught at line 54,
  `some chain` models the block together with its `superblock` chain,
  innermost block first;
* each `print` call of the script becomes an `Output` event carrying the
  data interpolated into the printed text (ANSI colouring and padding are
  pure formatting and carry no information);
* the backtrace built by the `while frame:` loop (lines 114-116) is the
  input list of frames, innermost first; `gdb.selected_frame()` raising
  `gdb.error` is modelled by the `Option` on the backtrace;
* the two command arguments pass through `gdb.parse_and_eval` and `int`,
  so they reach the range logic as plain integers: `argv : List Int`;
* the Python `dict` `symbols` preserves insertion order, so it is
  modelled as an association list to which `insertSym` appends;
* Python's `sorted(..., reverse=True)` is a stable descending sort,
  modelled by `List.mergeSort` with `le a b := b.size ≤ a.size`.
-/

namespace StackInspector

/-- Model of a gdb symbol as read by `analyze_frame`: its name, the
classification flags tested at lines 65-66, and its type's size and name. -/
structure GSymbol where
  name : String
  is_argument : Bool
  is_variable : Bool
  addr_class_static : Bool
  type_sizeof : Int
  type_name : String
  deriving DecidableEq

/-- The `Symbol` namedtuple of line 14: the displayed size and type. -/
structure Symbol where
  size : Int
  typename : String
  deriving DecidableEq

/-- Model of one gdb lexical block: its `is_global` / `is_static` flags and
the symbols it directly declares (iteration order of line 61). -/
structure Block where
  is_global : Bool
  is_static : Bool
  syms : List GSymbol
  deriving DecidableEq

/-- Model of a gdb frame, carrying exactly the data `analyze_frame` reads:
`find_sal()` gives `symtab_filename` (present iff `info.symtab` is truthy)
and `sal_line`; `frame.function().name` gives `func_name`; `pc`, `sp`, `fp`
are the register values; `blockChain` is `none` when `frame.block()` raises
`RuntimeError`, else the block chain walked via `superblock`, innermost
block first. -/
structure Frame where
  symtab_filename : Option String
  sal_line : Nat
  func_name : String
  pc : Int
  sp : Int
  fp : Int
  blockChain : Option (List Block)
  deriving DecidableEq

/-- One print event of the script, carrying the interpolated data. -/
inductive Output where
  | headerOk : Nat → String → String → Nat → Output
  | headerFallback : Nat → Output
  | registers : Int → Int → Int → Output
  | blockFailure : Output
  | symbolLine : Int → String → String → Output
  | blankLine : Output
  | noStack : Output
  deriving DecidableEq

/-- The filter of lines 65-66: keep function arguments and local variables
whose address class is not `SYMBOL_LOC_STATIC`. -/
def keepSymbol (s : GSymbol) : Bool :=
  s.is_argument || (s.is_variable && !s.addr_class_static)

/-- The association-list entry stored at line 68. -/
def toPair (s : GSymbol) : String × Symbol :=
  (s.name, ⟨s.type_sizeof, s.type_name⟩)

/-- Lines 67-68: `if symbol.name not in symbols: symbols[symbol.name] = ...`
on an insertion-ordered dictionary. -/
def insertSym (symbols : List (String × Symbol)) (s : GSymbol) : List (String × Symbol) :=
  if symbols.any (fun p => p.1 == s.name) then symbols else symbols ++ [toPair s]

/-- One iteration of the `while block:` loop, lines 59-70: skip the block
when it is global or static, otherwise fold lines 61-68 over its symbols. -/
def collectBlock (symbols : List (String × Symbol)) (b : Block) : List (String × Symbol) :=
  if !(b.is_global || b.is_static) then
    b.syms.foldl (fun acc s => if keepSymbol s then insertSym acc s else acc) symbols
  else symbols

/-- The whole `while block:` loop of lines 58-70, starting from the empty
dictionary and walking the superblock chain (the input list). -/
def collectSymbols (chain : List Block) : List (String × Symbol) :=
  chain.foldl collectBlock []

/-- Specification-side view of the walk order: the kept symbols of the
non-global, non-static blocks, innermost block first, declaration order
within a block. `collectSymbols` is the first-seen-wins deduplication of
this list (proved below). -/
def enumerate : List Block → List GSymbol
  | [] => []
  | b :: rest =>
      (if b.is_global || b.is_static then [] else b.syms.filter keepSymbol) ++ enumerate rest

/-- The comparison realised by `sorted(..., key=lambda s: s[1].size,
reverse=True)` at lines 72-74: `a` may precede `b` iff the size of `b` is
at most the size of `a`. -/
def symLe (a b : String × Symbol) : Bool :=
  b.2.size ≤ a.2.size

/-- Lines 72-74: stable sort of the collected symbols, size descending. -/
def sortSymbols (l : List (String × Symbol)) : List (String × Symbol) :=
  l.mergeSort symLe

/-- The `analyze_frame` function, lines 17-87, as the list of its print
events: header (lines 20-37), registers (lines 42-47), early return when
there is no symtab (lines 49-50), block-retrieval failure (lines 52-56),
then the sorted symbol lines (lines 76-85) and the final blank print. -/
def analyze_frame (frame_nr : Nat) (frame : Frame) : List Output :=
  let header : Output :=
    match frame.symtab_filename with
    | some filename => .headerOk frame_nr frame.func_name filename frame.sal_line
    | none => .headerFallback frame_nr
  let regs : Output := .registers frame.pc frame.sp frame.fp
  match frame.symtab_filename with
  | none => [header, regs]
  | some _ =>
    match frame.blockChain with
    | none => [header, regs, .blockFailure]
    | some chain =>
        [header, regs]
          ++ (sortSymbols (collectSymbols chain)).map
              (fun p => .symbolLine p.2.size p.1 p.2.typename)
          ++ [.blankLine]

/-- Lines 105-112: the `(fstart, fend)` pair computed from the parsed
arguments. No argument: `(0, 999999)`; one argument `N`: `(0, N - 1)`;
two or more: `(argv[0], argv[0] + argv[1] - 1)`. -/
def computeRange : List Int → Int × Int
  | [] => (0, 999999)
  | [a] => (0, a - 1)
  | a :: b :: _ => (a, a + b - 1)

/-- Lines 119-123: the `for frame_nr, frame in enumerate(backtrace)` loop.
A frame is analyzed when `fstart ≤ frame_nr`; the loop breaks after the
body whenever `fend ≤ frame_nr`. -/
def invokeLoop : List (Nat × Frame) → Int → Int → List Output
  | [], _, _ => []
  | (i, f) :: rest, fstart, fend =>
      let out := if fstart ≤ (i : Int) then analyze_frame i f else []
      if fend ≤ (i : Int) then out else out ++ invokeLoop rest fstart fend

/-- The `invoke` method, lines 96-123, as the list of its print events.
`sel = none` models `gdb.selected_frame()` raising `gdb.error`; otherwise
`sel = some backtrace` is the frame chain built at lines 114-116. The
leading `blankLine` is the bare `print()` of line 118. -/
def invoke (sel : Option (List Frame)) (argv : List Int) : List Output :=
  match sel with
  | none => [Output.noStack]
  | some backtrace =>
      let r := computeRange argv
      Output.blankLine :: invokeLoop backtrace.enum r.1 r.2

/-- Frame number announced by a header event, if any: each analyzed frame
emits exactly one header. -/
def headerNr : Output → Option Nat
  | .headerOk n _ _ _ => some n
  | .headerFallback n => some n
  | _ => none

/-- The sequence of frame indices the command analyzes, read off from the
emitted headers in order. -/
def analyzedIndices (sel : Option (List Frame)) (argv : List Int) : List Nat :=
  (invoke sel argv).filterMap headerNr

/-- Index-level shadow of `invokeLoop`: which indices get analyzed. -/
def loopIdx : List Nat → Int → Int → List Nat
  | [], _, _ => []
  | i :: rest, fstart, fend =>
      let cur := if fstart ≤ (i : Int) then [i] else []
      if fend ≤ (i : Int) then cur else cur ++ loopIdx rest fstart fend

/-! Helper lemmas about the driver loop. -/

theorem headerNr_analyze (nr : Nat) (f : Frame) :
    (analyze_frame nr f).filterMap headerNr = [nr] := by
  unfold analyze_frame
  cases h1 : f.symtab_filename with
  | none => simp [headerNr]
  | some filename =>
    cases h2 : f.blockChain with
    | none => simp [headerNr]
    | some chain =>
        simp [headerNr, List.filterMap_append, List.filterMap_map, Function.comp_def]

theorem loopIdx_cons (i : Nat) (rest : List Nat) (fs fe : Int) :
    loopIdx (i :: rest) fs fe =
      (if fs ≤ (i : Int) then [i] else []) ++
        (if fe ≤ (i : Int) then [] else loopIdx rest fs fe) := by
  by_cases h1 : fe ≤ (i : Int) <;> by_cases h2 : fs ≤ (i : Int) <;>
    simp [loopIdx, h1, h2]

theorem loopIdx_range' (fs fe : Int) :
    ∀ (n i : Nat), loopIdx (List.range' i n) fs fe =
      (List.range' i (min n (1 + (fe - (i : Int)).toNat))).filter
        (fun (j : Nat) => decide (fs ≤ (j : Int))) := by
  intro n
  induction n with
  | zero => intro i; simp [loopIdx]
  | succ n ih =>
    intro i
    rw [List.range'_succ, loopIdx_cons]
    by_cases h : fe ≤ (i : Int)
    · have h1 : min (n + 1) (1 + (fe - (i : Int)).toNat) = 1 := by omega
      rw [h1]
      have h2 : List.range' i 1 = [i] := rfl
      rw [h2, if_pos h]
      by_cases h3 : fs ≤ (i : Int) <;> simp [h3]
    · have h1 : min (n + 1) (1 + (fe - (i : Int)).toNat)
          = min n (1 + (fe - ((i : Int) + 1)).toNat) + 1 := by omega
      rw [h1, List.range'_succ, List.filter_cons, if_neg h, ih (i + 1)]
      have h2 : (fe - (((i + 1) : Nat) : Int)).toNat = (fe - ((i : Int) + 1)).toNat := by
        push_cast
        omega
      rw [h2]
      by_cases h3 : fs ≤ (i : Int) <;> simp [h3]

theorem invokeLoop_headers :
    ∀ (l : List (Nat × Frame)) (fs fe : Int),
      (invokeLoop l fs fe).filterMap headerNr = loopIdx (l.map Prod.fst) fs fe := by
  intro l
  induction l with
  | nil => intro fs fe; simp [invokeLoop, loopIdx]
  | cons p rest ih =>
    intro fs fe
    obtain ⟨i, f⟩ := p
    rw [List.map_cons, loopIdx_cons]
    by_cases h1 : fe ≤ (i : Int) <;> by_cases h2 : fs ≤ (i : Int) <;>
      simp [invokeLoop, h1, h2, headerNr_analyze, List.filterMap_append, ih]

theorem analyzedIndices_eq (bt : List Frame) (argv : List Int) :
    analyzedIndices (some bt) argv =
      (List.range (min bt.length (1 + ((computeRange argv).2).toNat))).filter
        (fun (j : Nat) => decide ((computeRange argv).1 ≤ (j : Int))) := by
  unfold analyzedIndices invoke
  rw [List.filterMap_cons]
  have h0 : headerNr Output.blankLine = none := rfl
  rw [h0, invokeLoop_headers, List.enum_map_fst, List.range_eq_range',
      loopIdx_range', List.range_eq_range']
  norm_num

theorem filter_nonneg_eq (l : List Nat) :
    l.filter (fun (j : Nat) => decide ((0 : Int) ≤ (j : Int))) = l := by
  apply List.filter_eq_self.mpr
  intro a _
  simp

theorem analyzedIndices_no_arg (bt : List Frame) :
    analyzedIndices (some bt) [] = List.range (min bt.length 1000000) := by
  rw [analyzedIndices_eq]
  show (List.range (min bt.length 1000000)).filter
      (fun (j : Nat) => decide ((0 : Int) ≤ (j : Int))) = _
  exact filter_nonneg_eq _

theorem analyzedIndices_one_arg (bt : List Frame) (N : Int) :
    analyzedIndices (some bt) [N] = List.range (min bt.length (1 + (N - 1).toNat)) := by
  rw [analyzedIndices_eq]
  exact filter_nonneg_eq _

theorem analyzedIndices_two_arg (bt : List Frame) (a b : Int) (rest : List Int) :
    analyzedIndices (some bt) (a :: b :: rest) =
      (List.range (min bt.length (1 + (a + b - 1).toNat))).filter
        (fun (j : Nat) => decide (a ≤ (j : Int))) := by
  rw [analyzedIndices_eq]
  rfl

/-! Helper lemmas about symbol collection. -/

/-- Keys of the association list are pairwise distinct. -/
def NodupKeys (l : List (String × Symbol)) : Prop :=
  (l.map Prod.fst).Nodup

/-- Name lookup in the modelled dictionary. -/
def lookupName (l : List (String × Symbol)) (n : String) : Option (String × Symbol) :=
  l.find? (fun p => p.1 == n)

theorem foldl_keep_filter (syms : List GSymbol) :
    ∀ acc : List (String × Symbol),
      syms.foldl (fun acc s => if keepSymbol s then insertSym acc s else acc) acc
        = (syms.filter keepSymbol).foldl insertSym acc := by
  induction syms with
  | nil => intro acc; rfl
  | cons s rest ih =>
    intro acc
    rw [List.foldl_cons, List.filter_cons]
    cases hk : keepSymbol s <;> simp [hk, ih]

theorem collect_foldl (chain : List Block) :
    ∀ acc, chain.foldl collectBlock acc = (enumerate chain).foldl insertSym acc := by
  induction chain with
  | nil => intro acc; rfl
  | cons b rest ih =>
    intro acc
    rw [List.foldl_cons, enumerate, List.foldl_append]
    cases hb : (b.is_global || b.is_static) <;>
      simp [collectBlock, hb, ih, foldl_keep_filter]

theorem collectSymbols_eq (chain : List Block) :
    collectSymbols chain = (enumerate chain).foldl insertSym [] :=
  collect_foldl chain []

theorem lookupName_insertSym (acc : List (String × Symbol)) (s : GSymbol) (n : String) :
    lookupName (insertSym acc s) n =
      (lookupName acc n).or (if s.name == n then some (toPair s) else none) := by
  unfold insertSym
  cases ha : acc.any (fun p => p.1 == s.name) with
  | true =>
    rw [if_pos rfl]
    cases hn : (s.name == n) with
    | false => simp
    | true =>
      have hn' : s.name = n := by simpa using hn
      have hsome : (lookupName acc n).isSome := by
        rw [lookupName, List.find?_isSome]
        simp only [List.any_eq_true] at ha
        obtain ⟨p, hp, he⟩ := ha
        exact ⟨p, hp, by simp_all⟩
      obtain ⟨q, hq⟩ := Option.isSome_iff_exists.mp hsome
      rw [hq]
      simp
  | false =>
    rw [if_neg (by simp [ha])]
    rw [lookupName, lookupName, List.find?_append]
    have h1 : List.find? (fun p => p.1 == n) [toPair s]
        = if s.name == n then some (toPair s) else none := by
      cases hn : (s.name == n) <;> simp [List.find?, toPair, hn]
    rw [h1]

theorem lookupName_foldl (l : List GSymbol) :
    ∀ (acc : List (String × Symbol)) (n : String),
      lookupName (l.foldl insertSym acc) n =
        (lookupName acc n).or ((l.find? (fun s => s.name == n)).map toPair) := by
  induction l with
  | nil => intro acc n; simp
  | cons s rest ih =>
    intro acc n
    rw [List.foldl_cons, ih, lookupName_insertSym, Option.or_assoc]
    cases hn : (s.name == n) with
    | true => simp [hn]
    | false => simp [hn]

theorem collectSymbols_lookup (chain : List Block) (n : String) :
    lookupName (collectSymbols chain) n
      = ((enumerate chain).find? (fun s => s.name == n)).map toPair := by
  rw [collectSymbols_eq, lookupName_foldl]
  simp [lookupName]

theorem nodupKeys_insertSym (acc : List (String × Symbol)) (s : GSymbol)
    (h : NodupKeys acc) : NodupKeys (insertSym acc s) := by
  unfold insertSym
  cases ha : acc.any (fun p => p.1 == s.name) with
  | true => rw [if_pos rfl]; exact h
  | false =>
    rw [if_neg (by simp)]
    have hnotin : s.name ∉ acc.map Prod.fst := by
      intro hc
      rcases List.mem_map.mp hc with ⟨p, hp, hpe⟩
      have h2 := List.any_eq_false.mp ha p hp
      simp [hpe] at h2
    simp only [NodupKeys, toPair, List.map_append, List.map_cons, List.map_nil]
    rw [List.nodup_append]
    refine ⟨h, List.nodup_singleton _, ?_⟩
    intro a haa hab
    simp only [List.mem_cons, List.not_mem_nil, or_false] at hab
    exact hnotin (hab ▸ haa)

theorem nodupKeys_foldl (l : List GSymbol) :
    ∀ acc, NodupKeys acc → NodupKeys (l.foldl insertSym acc) := by
  induction l with
  | nil => intro acc h; exact h
  | cons s rest ih => intro acc h; exact ih _ (nodupKeys_insertSym acc s h)

theorem lookupName_of_mem_aux (q : String × Symbol) (rest : List (String × Symbol))
    (hnd : NodupKeys (q :: rest)) : q.1 ∉ rest.map Prod.fst ∧ NodupKeys rest := by
  simpa [NodupKeys, List.nodup_cons] using hnd

theorem collectSymbols_nodupKeys (chain : List Block) :
    ((collectSymbols chain).map Prod.fst).Nodup := by
  rw [collectSymbols_eq]
  exact nodupKeys_foldl _ [] (by simp [NodupKeys])

theorem mem_insertSym (acc : List (String × Symbol)) (s : GSymbol)
    (p : String × Symbol) (h : p ∈ insertSym acc s) : p ∈ acc ∨ p = toPair s := by
  unfold insertSym at h
  split at h
  · exact Or.inl h
  · simpa using h

theorem mem_foldl_insertSym (l : List GSymbol) :
    ∀ acc p, p ∈ l.foldl insertSym acc → p ∈ acc ∨ ∃ s ∈ l, p = toPair s := by
  induction l with
  | nil => intro acc p h; exact Or.inl h
  | cons s rest ih =>
    intro acc p h
    rcases ih _ p h with h1 | ⟨t, ht, hp⟩
    · rcases mem_insertSym acc s p h1 with h2 | h2
      · exact Or.inl h2
      · exact Or.inr ⟨s, List.mem_cons_self s rest, h2⟩
    · exact Or.inr ⟨t, List.mem_cons_of_mem s ht, hp⟩

theorem lookupName_of_mem :
    ∀ (l : List (String × Symbol)) (p : String × Symbol),
      NodupKeys l → p ∈ l → lookupName l p.1 = some p := by
  intro l
  induction l with
  | nil => intro p _ h; simp at h
  | cons q rest ih =>
    intro p hnd hmem
    have hnd' := lookupName_of_mem_aux q rest hnd
    rcases List.mem_cons.mp hmem with rfl | h
    · unfold lookupName
      simp
    · have hne : ¬((fun r : String × Symbol => r.1 == p.1) q = true) := by
        simp only [beq_iff_eq]
        intro he
        exact hnd'.1 (he ▸ List.mem_map_of_mem Prod.fst h)
      unfold lookupName
      have hstep : List.find? (fun r : String × Symbol => r.1 == p.1) (q :: rest)
          = List.find? (fun r : String × Symbol => r.1 == p.1) rest :=
        List.find?_cons_of_neg _ hne
      exact hstep.trans (ih p hnd'.2 h)

theorem mem_enumerate :
    ∀ (chain : List Block) (s : GSymbol),
      s ∈ enumerate chain ↔
        ∃ b, b ∈ chain ∧ b.is_global = false ∧ b.is_static = false ∧
          s ∈ b.syms ∧ keepSymbol s = true := by
  intro chain s
  induction chain with
  | nil => simp [enumerate]
  | cons b rest ih =>
    rw [enumerate, List.mem_append, ih]
    cases hb : (b.is_global || b.is_static) with
    | true =>
      rw [if_pos rfl]
      have h1 : b.is_global = true ∨ b.is_static = true := by simpa using hb
      constructor
      · rintro (h | ⟨b', hb', hrest⟩)
        · simp at h
        · exact ⟨b', List.mem_cons_of_mem b hb', hrest⟩
      · rintro ⟨b', hb', hg, hs, hrest⟩
        rcases List.mem_cons.mp hb' with rfl | h
        · rcases h1 with h1 | h1
          · rw [h1] at hg; exact Bool.noConfusion hg
          · rw [h1] at hs; exact Bool.noConfusion hs
        · exact Or.inr ⟨b', h, hg, hs, hrest⟩
    | false =>
      rw [if_neg (by simp)]
      have h1 : b.is_global = false ∧ b.is_static = false := by simpa using hb
      rw [List.mem_filter]
      constructor
      · rintro (⟨hmem, hkeep⟩ | ⟨b', hb', hrest⟩)
        · exact ⟨b, List.mem_cons_self b rest, h1.1, h1.2, hmem, hkeep⟩
        · exact ⟨b', List.mem_cons_of_mem b hb', hrest⟩
      · rintro ⟨b', hb', hg, hs, hmem, hkeep⟩
        rcases List.mem_cons.mp hb' with rfl | h
        · exact Or.inl ⟨hmem, hkeep⟩
        · exact Or.inr ⟨b', h, hg, hs, hmem, hkeep⟩

/-! Helper facts about the sort comparison. -/

theorem symLe_trans : ∀ a b c : String × Symbol, symLe a b → symLe b c → symLe a c := by
  intro a b c
  simp only [symLe, decide_eq_true_eq]
  omega

theorem symLe_total : ∀ a b : String × Symbol, symLe a b || symLe b a := by
  intro a b
  simp only [symLe, Bool.or_eq_true, decide_eq_true_eq]
  omega

/-! Concrete example values used by witnesses and counterexamples. -/

/-- Inner-scope local `int x` of size 4. -/
def exInnerX : GSymbol := ⟨"x", false, true, false, 4, "int"⟩

/-- Outer-scope local `double x` of size 8, shadowed by `exInnerX`. -/
def exOuterX : GSymbol := ⟨"x", false, true, false, 8, "double"⟩

/-- Function argument `buf` of size 4096. -/
def exBuf : GSymbol := ⟨"buf", true, false, false, 4096, "char [4096]"⟩

/-- Statically allocated local, excluded by the address-class test. -/
def exStaticS : GSymbol := ⟨"s", false, true, true, 100, "int [25]"⟩

/-- Example block chain: inner local block, outer local block, global block. -/
def exChain : List Block :=
  [⟨false, false, [exInnerX, exStaticS]⟩, ⟨false, false, [exOuterX, exBuf]⟩,
   ⟨true, false, [⟨"g", false, true, false, 999, "int"⟩]⟩]

/-- Example chain producing a size tie between `a` and `c`. -/
def exChainTie : List Block :=
  [⟨false, false,
    [⟨"a", true, false, false, 4, "int"⟩, ⟨"b", true, false, false, 8, "long"⟩,
     ⟨"c", true, false, false, 4, "float"⟩]⟩]

/-- Ordinary frame with full source information. -/
def exFrame : Frame := ⟨some "main.c", 42, "main", 4096, 8192, 8200, some exChain⟩

/-- Frame whose `find_sal()` has no symtab. -/
def exFrameNoSymtab : Frame := ⟨none, 0, "f", 11, 22, 33, some exChain⟩

/-- Frame whose `frame.block()` raises `RuntimeError`. -/
def exFrameNoBlock : Frame := ⟨some "a.c", 7, "g", 10, 20, 30, none⟩

/-! Claim theorems. -/

/-- Claim C1 fails as stated: with the single argument `N = 0` on a backtrace
of length 1, the command analyzes frame 0 instead of `min(0, 1) = 0` frames,
because the `frame_nr >= fend` break test runs only after the body. -/
theorem c1_counterexample : analyzedIndices (some [exFrame]) [0] ≠ [] := by
  decide

/-- Claim C1 (amended): with a single integer argument `N ≥ 1` the command
analyzes exactly the frames `0 .. min(N, L) - 1`; with `N ≤ 0` it analyzes
frame 0 alone whenever the backtrace is non-empty (and nothing when it is
empty). -/
theorem c1_single_arg (bt : List Frame) (N : Int) :
    analyzedIndices (some bt) [N] =
      if 1 ≤ N then List.range (min N.toNat bt.length)
      else if bt.length = 0 then [] else [0] := by
  rw [analyzedIndices_one_arg]
  by_cases h : 1 ≤ N
  · rw [if_pos h]
    have he : 1 + (N - 1).toNat = N.toNat := by omega
    rw [he, Nat.min_comm]
  · rw [if_neg h]
    have he : 1 + (N - 1).toNat = 1 := by omega
    rw [he]
    by_cases hL : bt.length = 0
    · rw [if_pos hL, hL]
      decide
    · rw [if_neg hL]
      have hm : min bt.length 1 = 1 := by omega
      rw [hm]
      decide

/-- Claim C2 fails as stated: with arguments `start = 0, count = 0` on a
backtrace of length 1, the claimed intersection is empty yet the command
analyzes frame 0. -/
theorem c2_counterexample : analyzedIndices (some [exFrame]) [0, 0] ≠ [] := by
  decide

/-- Claim C2 (amended): with arguments `start count`, when
`start + count - 1 ≥ 0` the set of analyzed indices is exactly
`[start, start + count - 1] ∩ [0, L - 1]`; when `start + count - 1 < 0`
frame 0 alone is analyzed, provided the backtrace is non-empty and
`start ≤ 0`. -/
theorem c2_start_count (bt : List Frame) (start count : Int) (i : Nat) :
    i ∈ analyzedIndices (some bt) [start, count] ↔
      (if 0 ≤ start + count - 1 then
        start ≤ (i : Int) ∧ (i : Int) ≤ start + count - 1 ∧ i < bt.length
      else i = 0 ∧ 0 < bt.length ∧ start ≤ 0) := by
  rw [analyzedIndices_two_arg]
  simp only [List.mem_filter, List.mem_range, decide_eq_true_eq]
  split <;> omega

/-- Claim C3 fails as stated: on a backtrace of 1000001 frames the command
analyzes only frames 0 .. 999999, because the default `fend` is the
sentinel 999999. -/
theorem c3_counterexample :
    analyzedIndices (some (List.replicate 1000001 exFrame)) [] ≠
      List.range (List.replicate 1000001 exFrame).length := by
  rw [analyzedIndices_no_arg]
  intro h
  have h2 := congrArg List.length h
  simp only [List.length_range, List.length_replicate] at h2
  omega

/-- Claim C3 (amended): for every backtrace of length `L ≤ 1000000`,
invoking with zero arguments analyzes exactly the frames `0 .. L - 1`, in
increasing index order, none skipped or repeated. -/
theorem c3_full_backtrace (bt : List Frame) (h : bt.length ≤ 1000000) :
    analyzedIndices (some bt) [] = List.range bt.length := by
  rw [analyzedIndices_no_arg, Nat.min_eq_left h]

/-- Witness for C3 at a concrete one-frame backtrace. -/
theorem c3_full_backtrace_witness :
    [exFrame].length ≤ 1000000 ∧
      analyzedIndices (some [exFrame]) [] = List.range [exFrame].length :=
  ⟨by decide, c3_full_backtrace [exFrame] (by decide)⟩

/-- Claim C4: the collected symbol list never holds two entries with the
same name, and each entry is the first kept declaration of that name in the
innermost-to-outermost walk (`enumerate`), so an inner declaration shadows
outer ones and its size and type are the ones recorded. -/
theorem c4_dedup_shadowing (chain : List Block) :
    ((collectSymbols chain).map Prod.fst).Nodup ∧
    ∀ p ∈ collectSymbols chain, ∃ s,
      (enumerate chain).find? (fun t => t.name == p.1) = some s ∧ p = toPair s := by
  refine ⟨collectSymbols_nodupKeys chain, ?_⟩
  intro p hp
  have h1 : lookupName (collectSymbols chain) p.1 = some p :=
    lookupName_of_mem _ p (collectSymbols_nodupKeys chain) hp
  rw [collectSymbols_lookup] at h1
  rcases Option.map_eq_some'.mp h1 with ⟨s, hs, hps⟩
  exact ⟨s, hs, hps.symm⟩

/-- Witness for C4: in `exChain` the name `x` is declared in both the inner
block (size 4, `int`) and the outer block (size 8, `double`); the recorded
entry is the inner one. -/
theorem c4_dedup_shadowing_witness :
    ∃ s, (enumerate exChain).find?
        (fun t => t.name == (("x", (⟨4, "int"⟩ : Symbol)) : String × Symbol).1) = some s ∧
      (("x", (⟨4, "int"⟩ : Symbol)) : String × Symbol) = toPair s :=
  (c4_dedup_shadowing exChain).2 ("x", ⟨4, "int"⟩) (by decide)

/-- Claim C5: every collected entry originates from a symbol of a block
that is neither global nor static, and that symbol is a function argument
or a local variable whose address class is not static. -/
theorem c5_only_stack_symbols (chain : List Block) :
    ∀ p ∈ collectSymbols chain, ∃ b, b ∈ chain ∧
      b.is_global = false ∧ b.is_static = false ∧ ∃ s, s ∈ b.syms ∧
        (s.is_argument = true ∨ (s.is_variable = true ∧ s.addr_class_static = false)) ∧
        p = toPair s := by
  intro p hp
  rw [collectSymbols_eq] at hp
  rcases mem_foldl_insertSym _ [] p hp with h | ⟨s, hs, hps⟩
  · simp at h
  · rcases (mem_enumerate chain s).mp hs with ⟨b, hb, hg, hst, hmem, hkeep⟩
    refine ⟨b, hb, hg, hst, s, hmem, ?_, hps⟩
    simpa [keepSymbol] using hkeep

/-- Witness for C5 at the entry recorded for `buf` in `exChain`. -/
theorem c5_only_stack_symbols_witness :
    ∃ b, b ∈ exChain ∧ b.is_global = false ∧ b.is_static = false ∧ ∃ s, s ∈ b.syms ∧
      (s.is_argument = true ∨ (s.is_variable = true ∧ s.addr_class_static = false)) ∧
      (("buf", (⟨4096, "char [4096]"⟩ : Symbol)) : String × Symbol) = toPair s :=
  c5_only_stack_symbols exChain ("buf", ⟨4096, "char [4096]"⟩) (by decide)

/-- Claim C6: the printed symbol list is a permutation of the collected one,
its sizes are non-increasing, and entries of equal size keep the relative
order in which they were first collected (stability of the sort). -/
theorem c6_sorted_stable (chain : List Block) :
    List.Perm (sortSymbols (collectSymbols chain)) (collectSymbols chain) ∧
    (sortSymbols (collectSymbols chain)).Pairwise
      (fun a b => b.2.size ≤ a.2.size) ∧
    ∀ a b : String × Symbol,
      List.Sublist [a, b] (collectSymbols chain) → a.2.size = b.2.size →
        List.Sublist [a, b] (sortSymbols (collectSymbols chain)) := by
  refine ⟨List.mergeSort_perm _ _, ?_, ?_⟩
  · have h := List.sorted_mergeSort symLe_trans symLe_total (collectSymbols chain)
    exact h.imp (by intro a b hab; simpa [symLe] using hab)
  · intro a b hab heq
    exact List.pair_sublist_mergeSort symLe_trans symLe_total
      (by simp [symLe, heq]) hab

/-- Witness for C6: in `exChainTie` the entries `a` and `c` tie at size 4
and keep their collection order in the sorted output. -/
theorem c6_sorted_stable_witness :
    List.Sublist [(("a", (⟨4, "int"⟩ : Symbol)) : String × Symbol), ("c", ⟨4, "float"⟩)]
      (sortSymbols (collectSymbols exChainTie)) :=
  (c6_sorted_stable exChainTie).2.2 ("a", ⟨4, "int"⟩) ("c", ⟨4, "float"⟩)
    (by decide) (by decide)

/-- Claim C7: when no frame is selected, the command prints exactly the one
informational line and nothing else, returning normally. -/
theorem c7_no_stack (argv : List Int) :
    invoke none argv = [Output.noStack] ∧ (invoke none argv).length = 1 :=
  ⟨rfl, rfl⟩

/-- Claim C8: for a frame with no symtab, the output is exactly the fallback
header plus the pc/sp/fp register dump: no symbol collection, no symbol
lines. -/
theorem c8_no_symtab (frame_nr : Nat) (f : Frame) (h : f.symtab_filename = none) :
    analyze_frame frame_nr f =
      [Output.headerFallback frame_nr, Output.registers f.pc f.sp f.fp] := by
  unfold analyze_frame
  rw [h]

/-- Witness for C8 at a concrete frame without a symtab. -/
theorem c8_no_symtab_witness :
    analyze_frame 0 exFrameNoSymtab =
      [Output.headerFallback 0, Output.registers 11 22 33] :=
  c8_no_symtab 0 exFrameNoSymtab rfl

/-- Claim C9: when retrieving the lexical block fails, the frame's output is
the header, the registers and the failure message, with no symbol list; and
the set of frames the driver analyzes is unchanged (it depends only on the
backtrace length), so the remaining in-range frames are still analyzed. -/
theorem c9_block_failure (frame_nr : Nat) (f : Frame) (filename : String)
    (h1 : f.symtab_filename = some filename) (h2 : f.blockChain = none)
    (bt bt' : List Frame) (argv : List Int) (hlen : bt.length = bt'.length) :
    analyze_frame frame_nr f =
      [Output.headerOk frame_nr f.func_name filename f.sal_line,
        Output.registers f.pc f.sp f.fp, Output.blockFailure] ∧
    analyzedIndices (some bt) argv = analyzedIndices (some bt') argv := by
  constructor
  · unfold analyze_frame
    rw [h1, h2]
  · rw [analyzedIndices_eq, analyzedIndices_eq, hlen]

/-- Witness for C9: a backtrace whose first frame has a failing block is
analyzed over the same indices as an all-good backtrace of equal length. -/
theorem c9_block_failure_witness :
    analyze_frame 1 exFrameNoBlock =
      [Output.headerOk 1 "g" "a.c" 7, Output.registers 10 20 30,
        Output.blockFailure] ∧
    analyzedIndices (some [exFrameNoBlock, exFrame]) [] =
      analyzedIndices (some [exFrame, exFrame]) [] :=
  c9_block_failure 1 exFrameNoBlock "a.c" rfl rfl
    [exFrameNoBlock, exFrame] [exFrame, exFrame] [] rfl

/-- Claim C10: whenever the backtrace is non-empty and the computed start
index is 0 (zero arguments, one argument, or two arguments starting at 0),
frame 0 is analyzed — even when the computed end index is below 0 — because
the upper-bound break runs only after the body. -/
theorem c10_frame_zero (bt : List Frame) (argv : List Int)
    (h1 : bt ≠ []) (h2 : (computeRange argv).1 = 0) :
    0 ∈ analyzedIndices (some bt) argv := by
  rw [analyzedIndices_eq, h2]
  rw [List.mem_filter, List.mem_range]
  constructor
  · have h3 : bt.length ≠ 0 := fun h => h1 (List.length_eq_zero.mp h)
    omega
  · simp

/-- Witness for C10 at the arguments `0 0`, whose computed end index is -1. -/
theorem c10_frame_zero_witness :
    0 ∈ analyzedIndices (some [exFrame]) [0, 0] :=
  c10_frame_zero [exFrame] [0, 0] (by decide) rfl

end StackInspector
